import Mathlib

/-!
Shallow embedding of `src/js/tag-i18n.js`, a tag-i18n helper that resolves
free-form tag strings to canonical keys and localized labels.

The JS module keeps four pieces of process-wide state (`tagTable`,
`aliasToCanonical`, `foldedCanonicalToCanonical`, `browserLoadPromise`);
the first three are modelled by `TagState` and loading is modelled by a
parameter carrying the raw value a loader obtained (`none` = load failed).
JS `Map`s are modelled as association lists with `Map.set`/`Map.get`/
`Map.has` semantics; JS values as the inductive `JSVal`.
-/

/-- JS runtime values, as far as this module observes them: strings, numbers,
booleans, `null`, `undefined`, arrays, and plain objects (ordered field
lists; JS objects never repeat a key). -/
inductive JSVal : Type where
  | vstr : String → JSVal
  | vnum : Int → JSVal
  | vbool : Bool → JSVal
  | vnull : JSVal
  | vundefined : JSVal
  | varr : List JSVal → JSVal
  | vobj : List (String × JSVal) → JSVal


/-- `isPlainObject(value)`: non-null, typeof object, not an array
(src lines 35-37). -/
def isPlainObject : JSVal → Bool
  | .vobj _ => true
  | _ => false

/-- The JS check `typeof v` equals the word string. -/
def isString : JSVal → Bool
  | .vstr _ => true
  | _ => false

/-- JS truthiness of a value. -/
def truthy : JSVal → Bool
  | .vstr s => !(s == "")
  | .vnum n => !(n == 0)
  | .vbool b => b
  | .vnull => false
  | .vundefined => false
  | .varr _ => true
  | .vobj _ => true

/-- `Object.keys(table)` for a plain object (insertion order); `[]` on
non-objects (never reached on those in the source). -/
def objKeys : JSVal → List String
  | .vobj fields => fields.map Prod.fst
  | _ => []

/-- First field of a field list whose name is `k`, if any. -/
def lookupField : List (String × JSVal) → String → Option JSVal
  | [], _ => none
  | p :: fs, k => if p.1 = k then some p.2 else lookupField fs k

/-- JS property access `v[k]`: the value of the field, `undefined` when absent or
when `v` carries no such field. -/
def objGet : JSVal → String → JSVal
  | .vobj fields, k =>
      match lookupField fields k with
      | some x => x
      | none => .vundefined
  | _, _ => .vundefined

/-- Whether a plain object has a field named `k`, as an `Option` (used by
spec-side definitions to say "an entry exists"). -/
def objLookup : JSVal → String → Option JSVal
  | .vobj fields, k => lookupField fields k
  | _, _ => none

/-- `foldTagKey(tag)`: trim + lowercase (src lines 39-42), modelled on the
character list of the string — leading and trailing whitespace dropped,
then every character lowercased. -/
def foldTagKey (tag : String) : String :=
  String.mk
    (((tag.data.dropWhile Char.isWhitespace).reverse.dropWhile
        Char.isWhitespace).reverse.map Char.toLower)

/-- `Map.has(k)` on an association-list model of a JS `Map`. -/
def mapHas : List (String × String) → String → Bool
  | [], _ => false
  | p :: m, k => p.1 = k || mapHas m k

/-- `Map.get(k)`: value of the first (unique) matching key, `undefined`
(`none`) when absent. -/
def mapGet : List (String × String) → String → Option String
  | [], _ => none
  | p :: m, k => if p.1 = k then some p.2 else mapGet m k

/-- `Map.set(k, v)`: overwrite the value in place when the key is present,
append otherwise. -/
def mapSet : List (String × String) → String → String → List (String × String)
  | [], k, v => [(k, v)]
  | p :: m, k, v => if p.1 = k then (k, v) :: m else p :: mapSet m k v

/-- `entry && Array.isArray(entry.aliases) ? entry.aliases : []`
(src line 52). -/
def entryAliases (entry : JSVal) : List JSVal :=
  if truthy entry then
    match objGet entry "aliases" with
    | .varr xs => xs
    | _ => []
  else []

/-- Body of the alias loop of `buildIndexes` (src lines 53-60): skip
non-strings, fold, skip empty folds, and keep the first mapping on
collision. -/
def aliasStep (canonical : String) (am : List (String × String)) (a : JSVal) :
    List (String × String) :=
  match a with
  | .vstr s =>
      let key := foldTagKey s
      if key = "" then am
      else if mapHas am key then am
      else mapSet am key canonical
  | _ => am

/-- The two lookup structures built from a table (src lines 26-30, 44-65). -/
structure Indexes where
  aliasToCanonical : List (String × String)
  foldedCanonicalToCanonical : List (String × String)


/-- One iteration of the `for (const canonical of Object.keys(table))` loop
of `buildIndexes` (src lines 48-61). -/
def buildStep (table : JSVal) (ix : Indexes) (canonical : String) : Indexes :=
  { aliasToCanonical :=
      (entryAliases (objGet table canonical)).foldl (aliasStep canonical)
        ix.aliasToCanonical
    foldedCanonicalToCanonical :=
      mapSet ix.foldedCanonicalToCanonical (foldTagKey canonical) canonical }

/-- `buildIndexes(table)` (src lines 44-65). -/
def buildIndexes (table : JSVal) : Indexes :=
  (objKeys table).foldl (buildStep table) ⟨[], []⟩

/-- The per-entry part of the shape check of `setTagTable`
(src lines 73-78). -/
def entryShapeOk (entry : JSVal) : Bool :=
  isPlainObject entry && isString (objGet entry "en") && isString (objGet entry "zh")

/-- The whole shape check of `setTagTable` (src lines 68-78): plain object,
at least one key, every entry a plain object with string `en` and `zh`. -/
def tableShapeOk (table : JSVal) : Bool :=
  isPlainObject table && !(objKeys table).isEmpty &&
    (objKeys table).all (fun k => entryShapeOk (objGet table k))

/-- Process-wide mutable state of the module (src lines 23-30). -/
structure TagState where
  tagTable : Option JSVal
  aliasToCanonical : Option (List (String × String))
  foldedCanonicalToCanonical : Option (List (String × String))


/-- State at module start: all three variables `null` (src lines 23-30). -/
def initState : TagState :=
  { tagTable := none, aliasToCanonical := none, foldedCanonicalToCanonical := none }

/-- The state in which `table` is installed and both indexes are built from
it (the assignments of src lines 63-64 and 80-81). -/
def installedState (table : JSVal) : TagState :=
  { tagTable := some table
    aliasToCanonical := some (buildIndexes table).aliasToCanonical
    foldedCanonicalToCanonical := some (buildIndexes table).foldedCanonicalToCanonical }

/-- `setTagTable(table)` (src lines 67-82): validate the shape, then install
the table and build both indexes; on any check failure return leaving the
state unchanged. -/
def setTagTable (st : TagState) (table : JSVal) : TagState :=
  if tableShapeOk table then installedState table else st

/-- `maybeLoadTagTable()` (src lines 96-124): no-op when the table is
already loaded; otherwise run the loader of the environment and install its
result via `setTagTable`. `loaded` is the raw value the loader obtained
(`none` models a missing file, fetch failure, malformed JSON, or a not-ok
response, all of which are swallowed). -/
def maybeLoadTagTable (st : TagState) (loaded : Option JSVal) : TagState :=
  if st.tagTable.isSome then st
  else
    match loaded with
    | some t => setTagTable st t
    | none => st

/-- The trailing `maybeLoadTagTable()` call of the module body (src line 202), run at
module initialization, before any query. -/
def moduleInitState (loaded : Option JSVal) : TagState :=
  maybeLoadTagTable initState loaded

/-- State after a load of `table` starting from a fresh module. -/
def loadedState (table : JSVal) : TagState :=
  setTagTable initState table

/-- JS `a || b` where `a` is a string-or-undefined (`Map.get` result) and the
fallback is another such value: an empty string is falsy and falls through. -/
def orFalsy (a b : Option String) : Option String :=
  match a with
  | some s => if s = "" then b else some s
  | none => b

/-- JS `a || tag` at the end of the lookup chain: the final fallback is the
string `tag` itself. -/
def orFalsyStr (a : Option String) (tag : String) : String :=
  match a with
  | some s => if s = "" then tag else s
  | none => tag

/-- `normalizeTag(tag)` (src lines 132-146), as a function of the state
after `maybeLoadTagTable` ran. -/
def normalizeTag (st : TagState) (tag : JSVal) : String :=
  match tag with
  | .vstr s =>
      if s = "" then ""
      else
        match st.aliasToCanonical, st.foldedCanonicalToCanonical with
        | some am, some cm =>
            let folded := foldTagKey s
            if folded = "" then ""
            else orFalsyStr (orFalsy (mapGet am folded) (mapGet cm folded)) s
        | _, _ => s
  | _ => ""

/-- The JS strict-equality test of `lang` against the string literal zh
(src lines 167, 182). -/
def langIsZh : JSVal → Bool
  | .vstr s => s == "zh"
  | _ => false

/-- `translateTag(tag, lang)` (src lines 157-170), as a function of the
state after `maybeLoadTagTable` ran. `canonical && tagTable[canonical]`
yields the falsy string `canonical` itself when it is empty. -/
def translateTag (st : TagState) (tag lang : JSVal) : String :=
  match tag with
  | .vstr s =>
      if s = "" then ""
      else
        match st.tagTable with
        | none => s
        | some table =>
            let canonical := normalizeTag st tag
            let entry := if canonical = "" then JSVal.vstr "" else objGet table canonical
            if truthy entry then
              let normalizedLang := if langIsZh lang then "zh" else "en"
              match objGet entry normalizedLang with
              | .vstr t => if t = "" then s else t
              | _ => s
            else s
  | _ => ""

/-- A `{ key, label }` pair returned by `getAllTags` (src lines 183-186). -/
structure TagPair where
  key : String
  label : JSVal


/-- `getAllTags(lang)` (src lines 178-187), as a function of the state after
`maybeLoadTagTable` ran. -/
def getAllTags (st : TagState) (lang : JSVal) : List TagPair :=
  match st.tagTable with
  | none => []
  | some table =>
      let normalizedLang := if langIsZh lang then "zh" else "en"
      (objKeys table).map (fun key => ⟨key, objGet (objGet table key) normalizedLang⟩)

/-! ## Spec-side definitions

The following definitions are written from the words of the spec (not from the
source); each refinement theorem compares one of them with the embedded
source function above. -/

/-- Modelled from the spec sentence for `normalizeTag`, read literally:
"returns, in priority order: (a) alias-index match, (b) fold-index match,
(c) the original unfolded input string if neither matches" — a match is
returned whenever the index has an entry for the folded input. -/
def specNormalizeTag (st : TagState) (tag : JSVal) : String :=
  match tag with
  | .vstr s =>
      if s = "" then ""
      else
        match st.aliasToCanonical, st.foldedCanonicalToCanonical with
        | some am, some cm =>
            let folded := foldTagKey s
            if folded = "" then ""
            else
              match mapGet am folded with
              | some c => c
              | none =>
                  match mapGet cm folded with
                  | some c => c
                  | none => s
        | _, _ => s
  | _ => ""

/-- The amended reading of the `normalizeTag` spec sentence: same priority
order, except that a match whose value is the empty string (possible only
when the empty string is itself a canonical key) is treated as absent. -/
def specNormalizeTagAmended (st : TagState) (tag : JSVal) : String :=
  match tag with
  | .vstr s =>
      if s = "" then ""
      else
        match st.aliasToCanonical, st.foldedCanonicalToCanonical with
        | some am, some cm =>
            let folded := foldTagKey s
            if folded = "" then ""
            else
              let fromFoldIndex : String :=
                match mapGet cm folded with
                | some c => if c = "" then s else c
                | none => s
              match mapGet am folded with
              | some c => if c = "" then fromFoldIndex else c
              | none => fromFoldIndex
        | _, _ => s
  | _ => ""

/-- Modelled from the spec sentence for `translateTag`, read literally:
resolve the canonical key via `normalizeTag`, return the tag "if no entry
exists for that canonical key", else select the `zh`/`en` field and return
the tag if that field is missing or empty. -/
def specTranslateTag (st : TagState) (tag lang : JSVal) : String :=
  match tag with
  | .vstr s =>
      if s = "" then ""
      else
        match st.tagTable with
        | none => s
        | some table =>
            match objLookup table (normalizeTag st tag) with
            | none => s
            | some entry =>
                match objGet entry (if langIsZh lang then "zh" else "en") with
                | .vstr t => if t = "" then s else t
                | _ => s
  | _ => ""

/-- The amended reading of the `translateTag` spec sentence: as
`specTranslateTag`, except that an empty resolved canonical key returns the
original tag without any table lookup. -/
def specTranslateTagAmended (st : TagState) (tag lang : JSVal) : String :=
  match tag with
  | .vstr s =>
      if s = "" then ""
      else
        match st.tagTable with
        | none => s
        | some table =>
            let canonical := normalizeTag st tag
            if canonical = "" then s
            else
              match objLookup table canonical with
              | none => s
              | some entry =>
                  match objGet entry (if langIsZh lang then "zh" else "en") with
                  | .vstr t => if t = "" then s else t
                  | _ => s
  | _ => ""

/-- Modelled from the spec sentence for `getAllTags`: empty sequence when no
table is loaded, else one `{ key, label }` pair per canonical key in the
insertion order of the table, with `label` the field of the entry for the resolved
language and no fallback applied. -/
def specGetAllTags (st : TagState) (lang : JSVal) : List TagPair :=
  match st.tagTable with
  | none => []
  | some table =>
      (objKeys table).map (fun key =>
        ⟨key, objGet (objGet table key) (if langIsZh lang then "zh" else "en")⟩)

/-- Modelled from the shape-validation policy of the spec: reject if the root
value is not a plain key-to-object mapping, if it has zero keys, or if any
entry lacks string-typed `en` and `zh` fields. -/
def specRejectTable (table : JSVal) : Bool :=
  !isPlainObject table || (objKeys table).isEmpty ||
    (objKeys table).any (fun k =>
      !(isString (objGet (objGet table k) "en") && isString (objGet (objGet table k) "zh")))

/-- The alias occurrence a single alias-list element contributes, per the
index-builder sentence of the spec: skip non-string entries, fold the alias,
skip if folding yields an empty string. -/
def occOf (canonical : String) (a : JSVal) : Option (String × String) :=
  match a with
  | .vstr s => if foldTagKey s = "" then none else some (foldTagKey s, canonical)
  | _ => none

/-- All alias occurrences of a table, in iteration order: canonical keys in
insertion order, for each key its alias list in sequence order. -/
def aliasOccs (table : JSVal) : List (String × String) :=
  (objKeys table).flatMap (fun k => (entryAliases (objGet table k)).filterMap (occOf k))

/-- Register a folded alias only if it is not already registered (the rule of the spec that the
first occurrence wins). -/
def insertIfAbsent (m : List (String × String)) (p : String × String) :
    List (String × String) :=
  if mapHas m p.1 then m else mapSet m p.1 p.2

/-- The canonical key of the first occurrence of folded alias `f` in an
occurrence list — the lookup result the index-builder sentence of the spec
prescribes. -/
def firstOcc : List (String × String) → String → Option String
  | [], _ => none
  | p :: l, f => if p.1 = f then some p.2 else firstOcc l f

/-! ## Concrete tables used by counterexamples and witnesses -/

/-- The example table given in the spec:
`{"cat-a": {en:"Cat A", zh:"猫A", aliases:["CAT_A"," cat a "]}}`. -/
def exTableCat : JSVal :=
  .vobj [("cat-a", .vobj [("en", .vstr "Cat A"), ("zh", .vstr "猫A"),
    ("aliases", .varr [.vstr "CAT_A", .vstr " cat a "])])]

/-- A shape-valid table in which an alias of the first key shadows the
second canonical key: `{"a": {en:"x", zh:"y", aliases:["b"]}, "b": {en:"x",
zh:"y"}}`. -/
def exTableAliasShadow : JSVal :=
  .vobj [("a", .vobj [("en", .vstr "x"), ("zh", .vstr "y"),
            ("aliases", .varr [.vstr "b"])]),
         ("b", .vobj [("en", .vstr "x"), ("zh", .vstr "y")])]

/-- A shape-valid table whose only canonical key is the empty string and
which registers the alias `"x"` for it:
`{"": {en:"x", zh:"y", aliases:["x"]}}`. -/
def exTableEmptyKeyAlias : JSVal :=
  .vobj [("", .vobj [("en", .vstr "x"), ("zh", .vstr "y"),
    ("aliases", .varr [.vstr "x"])])]

/-- A shape-valid table whose only canonical key is the empty string:
`{"": {en:"x", zh:"y"}}`. -/
def exTableEmptyKey : JSVal :=
  .vobj [("", .vobj [("en", .vstr "x"), ("zh", .vstr "y")])]

/-- A table that passes the shape check although both label fields are
empty strings: `{"k": {en:"", zh:""}}`. -/
def exTableEmptyLabels : JSVal :=
  .vobj [("k", .vobj [("en", .vstr ""), ("zh", .vstr "")])]

/-! ## Helper lemmas about the map model and folding -/

/-- Folding the empty string yields the empty string. -/
theorem foldTagKey_empty_eq : foldTagKey "" = "" := rfl

/-- A string whose fold is non-empty is itself non-empty. -/
theorem ne_empty_of_foldTagKey_ne {s : String} (h : foldTagKey s ≠ "") : s ≠ "" :=
  fun hs => h (by rw [hs]; rfl)

/-- `Map.set` followed by `Map.get`: the set key reads back the new value,
every other key is unaffected. -/
theorem mapGet_mapSet (m : List (String × String)) (k v f : String) :
    mapGet (mapSet m k v) f = if f = k then some v else mapGet m f := by
  induction m with
  | nil =>
      by_cases h : f = k
      · subst h; simp [mapSet, mapGet]
      · have hkf : ¬ k = f := fun hh => h hh.symm
        simp [mapSet, mapGet, h, hkf]
  | cons p m ih =>
      by_cases hp : p.1 = k
      · by_cases h : f = k
        · subst h; simp [mapSet, mapGet, hp]
        · have hkf : ¬ k = f := fun hh => h hh.symm
          have hpf : ¬ p.1 = f := fun hh => h (hh.symm.trans hp)
          simp [mapSet, mapGet, hp, h, hkf, hpf]
      · by_cases hf : p.1 = f
        · have : ¬ f = k := fun h => hp (hf.trans h)
          simp [mapSet, mapGet, hp, hf, this]
        · simp [mapSet, mapGet, hp, hf, ih]

/-- `Map.has` agrees with `Map.get` being defined. -/
theorem mapHas_eq_isSome (m : List (String × String)) (f : String) :
    mapHas m f = (mapGet m f).isSome := by
  induction m with
  | nil => rfl
  | cons p m ih =>
      by_cases h : p.1 = f <;> simp [mapHas, mapGet, h, ih]

/-- Looking up `f` after first-wins insertion of an occurrence list: an
existing binding survives, otherwise the first matching occurrence wins. -/
theorem mapGet_foldl_insertIfAbsent (l : List (String × String)) :
    ∀ (m : List (String × String)) (f : String),
      mapGet (l.foldl insertIfAbsent m) f =
        match mapGet m f with
        | some v => some v
        | none => firstOcc l f := by
  induction l with
  | nil =>
      intro m f
      cases h : mapGet m f <;> simp [firstOcc, h]
  | cons p l ih =>
      intro m f
      rw [List.foldl_cons, ih]
      by_cases hm : mapHas m p.1
      · have hins : insertIfAbsent m p = m := by simp [insertIfAbsent, hm]
        rw [hins]
        by_cases hf : p.1 = f
        · have hsome : (mapGet m f).isSome := by
            rw [← mapHas_eq_isSome, ← hf]; exact hm
          obtain ⟨v, hv⟩ := Option.isSome_iff_exists.mp hsome
          simp [hv, firstOcc, hf]
        · cases h : mapGet m f <;> simp [h, firstOcc, hf]
      · have hnone : mapGet m p.1 = none := by
          rw [mapHas_eq_isSome] at hm
          exact Option.not_isSome_iff_eq_none.mp (by simpa using hm)
        have hins : insertIfAbsent m p = mapSet m p.1 p.2 := by
          simp [insertIfAbsent, hm]
        rw [hins, mapGet_mapSet]
        by_cases hf : p.1 = f
        · rw [if_pos hf.symm]
          rw [← hf, hnone]
          simp [firstOcc, hf]
        · rw [if_neg (fun h : f = p.1 => hf h.symm)]
          cases h : mapGet m f <;> simp [h, firstOcc, hf]

/-! ## Decomposition of the index builder -/

/-- The fold of `buildStep` acts independently on the two maps. -/
theorem foldl_buildStep_eq (table : JSVal) :
    ∀ (ks : List String) (ix : Indexes),
      ks.foldl (buildStep table) ix =
        ⟨ks.foldl
            (fun am k => (entryAliases (objGet table k)).foldl (aliasStep k) am)
            ix.aliasToCanonical,
          ks.foldl (fun cm k => mapSet cm (foldTagKey k) k)
            ix.foldedCanonicalToCanonical⟩ := by
  intro ks
  induction ks with
  | nil => intro ix; rfl
  | cons k ks ih =>
      intro ix
      rw [List.foldl_cons, List.foldl_cons, List.foldl_cons, ih]
      rfl

/-- One alias-loop step is exactly first-wins insertion of the occurrence
the alias contributes (or a no-op when it contributes none). -/
theorem aliasStep_eq_occOf (k : String) (am : List (String × String)) (a : JSVal) :
    aliasStep k am a =
      match occOf k a with
      | none => am
      | some p => insertIfAbsent am p := by
  cases a <;> simp [aliasStep, occOf, insertIfAbsent]
  case vstr s => by_cases h : foldTagKey s = "" <;> simp [h]

/-- The alias loop over one alias list is first-wins insertion of its
occurrence list. -/
theorem foldl_aliasStep_eq (k : String) :
    ∀ (as : List JSVal) (am : List (String × String)),
      as.foldl (aliasStep k) am = (as.filterMap (occOf k)).foldl insertIfAbsent am := by
  intro as
  induction as with
  | nil => intro am; rfl
  | cons a as ih =>
      intro am
      rw [List.foldl_cons, ih, aliasStep_eq_occOf]
      cases h : occOf k a <;> simp [List.filterMap_cons, h]

/-- The whole alias loop over all keys is first-wins insertion of the
concatenated occurrence list. -/
theorem foldl_aliasStep_flatMap (table : JSVal) :
    ∀ (ks : List String) (m : List (String × String)),
      ks.foldl (fun am k => (entryAliases (objGet table k)).foldl (aliasStep k) am) m =
        (ks.flatMap (fun k => (entryAliases (objGet table k)).filterMap (occOf k))).foldl
          insertIfAbsent m := by
  intro ks
  induction ks with
  | nil => intro m; rfl
  | cons k ks ih =>
      intro m
      rw [List.foldl_cons, ih, List.flatMap_cons, List.foldl_append, foldl_aliasStep_eq]

/-- The alias index equals first-wins insertion of all alias occurrences. -/
theorem buildIndexes_alias_eq (table : JSVal) :
    (buildIndexes table).aliasToCanonical = (aliasOccs table).foldl insertIfAbsent [] := by
  rw [buildIndexes, foldl_buildStep_eq]
  exact foldl_aliasStep_flatMap table (objKeys table) []

/-- The canonical fold index is the plain fold of `Map.set` over the keys. -/
theorem buildIndexes_canon_eq (table : JSVal) :
    (buildIndexes table).foldedCanonicalToCanonical =
      (objKeys table).foldl (fun cm k => mapSet cm (foldTagKey k) k) [] := by
  rw [buildIndexes, foldl_buildStep_eq]

/-- A defined `Map.get` stays defined under further `Map.set` folding. -/
theorem mapGet_isSome_foldl_mapSet :
    ∀ (ks : List String) (m : List (String × String)) (f : String),
      (mapGet m f).isSome = true →
      (mapGet (ks.foldl (fun cm k => mapSet cm (foldTagKey k) k) m) f).isSome = true := by
  intro ks
  induction ks with
  | nil => intro m f h; exact h
  | cons k ks ih =>
      intro m f h
      rw [List.foldl_cons]
      apply ih
      rw [mapGet_mapSet]
      by_cases hf : f = foldTagKey k <;> simp [hf, h]

/-- Every listed key has a defined canonical-fold lookup after the fold. -/
theorem mem_foldl_mapSet_isSome :
    ∀ (ks : List String) (m : List (String × String)) (k : String), k ∈ ks →
      (mapGet (ks.foldl (fun cm c => mapSet cm (foldTagKey c) c) m)
        (foldTagKey k)).isSome = true := by
  intro ks
  induction ks with
  | nil => intro m k h; cases h
  | cons c ks ih =>
      intro m k h
      rw [List.foldl_cons]
      rcases List.mem_cons.mp h with h1 | h2
      · subst h1
        apply mapGet_isSome_foldl_mapSet
        rw [mapGet_mapSet]
        simp
      · exact ih _ k h2

/-- A name that is not among the field names looks up to `none`. -/
theorem lookupField_eq_none_of_not_mem :
    ∀ (fields : List (String × JSVal)) (s : String), s ∉ fields.map Prod.fst →
      lookupField fields s = none := by
  intro fields
  induction fields with
  | nil => intro s _; rfl
  | cons p fs ih =>
      intro s h
      rw [List.map_cons, List.mem_cons] at h
      push_neg at h
      have hne : ¬ p.1 = s := fun hh => h.1 hh.symm
      simp [lookupField, hne, ih s h.2]

/-- Property access for a string that is no key of the table yields
`undefined`. -/
theorem objGet_eq_vundef_of_not_mem (table : JSVal) (s : String)
    (h : s ∉ objKeys table) : objGet table s = .vundefined := by
  cases table <;> try rfl
  case vobj fields =>
    rw [objKeys] at h
    simp [objGet, lookupField_eq_none_of_not_mem fields s h]

/-- A table that passes the shape check installs as `installedState`. -/
theorem loadedState_eq_installed (table : JSVal) (h : tableShapeOk table = true) :
    loadedState table = installedState table := by
  simp [loadedState, setTagTable, h]

/-- The JS lookup chain `a || b || tag` spelled out as nested matches with
empty strings falling through. -/
theorem orFalsyStr_orFalsy (a b : Option String) (s : String) :
    orFalsyStr (orFalsy a b) s =
      match a with
      | some c =>
          if c = "" then
            match b with
            | some c2 => if c2 = "" then s else c2
            | none => s
          else c
      | none =>
          match b with
          | some c2 => if c2 = "" then s else c2
          | none => s := by
  cases a with
  | none => cases b with
    | none => rfl
    | some c2 => by_cases h2 : c2 = "" <;> simp [orFalsy, orFalsyStr, h2]
  | some c =>
      by_cases h : c = ""
      · cases b with
        | none => simp [orFalsy, orFalsyStr, h]
        | some c2 => by_cases h2 : c2 = "" <;> simp [orFalsy, orFalsyStr, h, h2]
      · simp [orFalsy, orFalsyStr, h]

/-- On every value the per-entry shape check reduces to the two string-typed
field tests (a non-object has no string-typed fields to offer). -/
theorem entryShapeOk_eq_fields (entry : JSVal) :
    entryShapeOk entry =
      (isString (objGet entry "en") && isString (objGet entry "zh")) := by
  cases entry <;> simp [entryShapeOk, isPlainObject, isString, objGet]

/-- The shape check of the source accepts exactly the tables the rejection
policy of the spec does not reject. -/
theorem tableShapeOk_eq_not_reject (table : JSVal) :
    tableShapeOk table = !specRejectTable table := by
  rw [Bool.eq_iff_iff]
  unfold tableShapeOk specRejectTable
  simp only [entryShapeOk_eq_fields]
  simp [List.all_eq_true, List.any_eq_true, not_or]

/-! ## Claim theorems -/

/-- C7: for every table, the alias index built by `buildIndexes` answers
every lookup exactly as the occurrence list prescribes: non-string aliases
and aliases folding to the empty string are skipped, and the first
occurrence in iteration order wins, also on collisions across different
canonical keys. -/
theorem C7_alias_index_spec (table : JSVal) (f : String) :
    mapGet ((buildIndexes table).aliasToCanonical) f = firstOcc (aliasOccs table) f := by
  rw [buildIndexes_alias_eq, mapGet_foldl_insertIfAbsent]
  rfl

/-- C2 counterexample: with the loaded table `{"": {en:"x", zh:"y",
aliases:["x"]}}` the alias index maps the folded input `"x"` to the empty
canonical key, so the literal claim (return the alias-index match) demands
the empty string, but `normalizeTag` returns the input `"x"`. -/
theorem C2_counterexample :
    normalizeTag (loadedState exTableEmptyKeyAlias) (.vstr "x") = "x" ∧
    specNormalizeTag (loadedState exTableEmptyKeyAlias) (.vstr "x") = "" ∧
    ("x" : String) ≠ "" := by
  refine ⟨rfl, rfl, by decide⟩

/-- C2 (amended): `normalizeTag` behaves exactly as the spec sentence says —
empty string for non-string or empty input, input unchanged when the
indexes are unavailable, empty string when the fold is empty, else
alias-index match, else fold-index match, else the original input — with
the amendment that a match whose value is the empty string (possible only
when the empty string is a canonical key) is treated as absent. -/
theorem C2_normalizeTag_spec_amended (st : TagState) (tag : JSVal) :
    normalizeTag st tag = specNormalizeTagAmended st tag := by
  cases tag <;> try rfl
  case vstr s =>
    by_cases hs : s = ""
    · simp [normalizeTag, specNormalizeTagAmended, hs]
    · rcases ham : st.aliasToCanonical with _ | am
      · simp [normalizeTag, specNormalizeTagAmended, hs, ham]
      · rcases hcm : st.foldedCanonicalToCanonical with _ | cm
        · simp [normalizeTag, specNormalizeTagAmended, hs, ham, hcm]
        · by_cases hf : foldTagKey s = ""
          · simp [normalizeTag, specNormalizeTagAmended, hs, ham, hcm, hf]
          · cases hma : mapGet am (foldTagKey s) with
            | none =>
                cases hmc : mapGet cm (foldTagKey s) with
                | none =>
                    simp [normalizeTag, specNormalizeTagAmended, hs, ham, hcm, hf,
                      hma, hmc, orFalsy, orFalsyStr]
                | some c2 =>
                    by_cases h2 : c2 = "" <;>
                      simp [normalizeTag, specNormalizeTagAmended, hs, ham, hcm, hf,
                        hma, hmc, h2, orFalsy, orFalsyStr]
            | some c =>
                by_cases h1 : c = ""
                · cases hmc : mapGet cm (foldTagKey s) with
                  | none =>
                      simp [normalizeTag, specNormalizeTagAmended, hs, ham, hcm, hf,
                        hma, hmc, h1, orFalsy, orFalsyStr]
                  | some c2 =>
                      by_cases h2 : c2 = "" <;>
                        simp [normalizeTag, specNormalizeTagAmended, hs, ham, hcm, hf,
                          hma, hmc, h1, h2, orFalsy, orFalsyStr]
                · simp [normalizeTag, specNormalizeTagAmended, hs, ham, hcm, hf,
                    hma, h1, orFalsy, orFalsyStr]

/-- C3 counterexample: with the loaded table `{"": {en:"x", zh:"y"}}` and
the whitespace tag, `normalizeTag` resolves the canonical key to the empty
string; an entry for that canonical key exists with non-empty `en` field
`"x"`, so the literal claim demands `"x"`, but `translateTag` returns the
original tag unchanged. -/
theorem C3_counterexample :
    normalizeTag (loadedState exTableEmptyKey) (.vstr " ") = "" ∧
    objLookup exTableEmptyKey "" =
      some (.vobj [("en", .vstr "x"), ("zh", .vstr "y")]) ∧
    translateTag (loadedState exTableEmptyKey) (.vstr " ") (.vstr "en") = " " ∧
    specTranslateTag (loadedState exTableEmptyKey) (.vstr " ") (.vstr "en") = "x" ∧
    (" " : String) ≠ "x" := by
  refine ⟨rfl, rfl, rfl, rfl, by decide⟩

/-- C3 (amended): `translateTag` behaves exactly as the spec sentence says —
empty string for non-string or empty input, tag unchanged when no table is
loaded, canonical key resolved via `normalizeTag`, tag returned when the
selected label field is missing or empty, `zh` field iff `lang` is exactly
the string zh — with the amendment that the tag is also returned, without
any table lookup, when the resolved canonical key is the empty string. -/
theorem C3_translateTag_spec_amended (st : TagState) (tag lang : JSVal) :
    translateTag st tag lang = specTranslateTagAmended st tag lang := by
  cases tag <;> try rfl
  case vstr s =>
    by_cases hs : s = ""
    · simp [translateTag, specTranslateTagAmended, hs]
    · rcases ht : st.tagTable with _ | table
      · simp [translateTag, specTranslateTagAmended, hs, ht]
      · by_cases hc : normalizeTag st (.vstr s) = ""
        · simp [translateTag, specTranslateTagAmended, hs, ht, hc, truthy]
        · rcases hl : objLookup table (normalizeTag st (.vstr s)) with _ | entry
          · have hg : objGet table (normalizeTag st (.vstr s)) = .vundefined := by
              cases table <;> simp_all [objLookup, objGet]
            simp [translateTag, specTranslateTagAmended, hs, ht, hc, hl, hg, truthy]
          · have hg : objGet table (normalizeTag st (.vstr s)) = entry := by
              cases table <;> simp_all [objLookup, objGet]
            simp only [translateTag, specTranslateTagAmended, ht, hg, hl, hs, hc,
              if_false, ite_false]
            cases entry with
            | vstr t => by_cases hts : t = "" <;> simp [truthy, objGet, hts]
            | vnum n => by_cases hn : n = 0 <;> simp [truthy, objGet, hn]
            | vbool b => cases b <;> simp [truthy, objGet]
            | vnull => simp [truthy, objGet]
            | vundefined => simp [truthy, objGet]
            | varr xs => simp [truthy, objGet]
            | vobj fs => simp [truthy]

/-- C4: `getAllTags` returns the empty sequence when no table is loaded,
and otherwise exactly one pair per canonical key, in the insertion order of
the table, whose label is the field of that entry for the resolved language
with no fallback applied — the behaviour the spec sentence prescribes. -/
theorem C4_getAllTags_spec (st : TagState) (lang : JSVal) :
    getAllTags st lang = specGetAllTags st lang := by
  rcases ht : st.tagTable with _ | table <;> simp [getAllTags, specGetAllTags, ht]

/-- C6: installation of a candidate table leaves the state unchanged exactly
when the rejection policy of the spec rejects it (root not a plain
key-to-object mapping, zero keys, or some entry without string-typed `en`
and `zh` fields), and installs the table with freshly built indexes
otherwise. -/
theorem C6_setTagTable_reject_policy (st : TagState) (table : JSVal) :
    setTagTable st table =
      if specRejectTable table then st else installedState table := by
  rw [setTagTable, tableShapeOk_eq_not_reject]
  cases h : specRejectTable table <;> simp [h]

/-- C1 counterexample: in the loaded table `{"a": {en:"x", zh:"y",
aliases:["b"]}, "b": {en:"x", zh:"y"}}` the string `"b"` is a canonical
key, yet `normalizeTag` maps it to `"a"` because the alias index is
consulted first. -/
theorem C1_counterexample :
    "b" ∈ objKeys exTableAliasShadow ∧
    (loadedState exTableAliasShadow).tagTable = some exTableAliasShadow ∧
    normalizeTag (loadedState exTableAliasShadow) (.vstr "b") = "a" ∧
    ("a" : String) ≠ "b" := by
  refine ⟨by decide, rfl, rfl, by decide⟩

/-- C1 (amended): for every loaded table and canonical key `k` whose
non-empty fold is claimed by no alias and is mapped to `k` by the
canonical-fold index (which holds whenever no alias folds like `k` and no
later canonical key shares its fold), `normalizeTag` sends `k` itself and
every casing or whitespace variant of `k` — any string with the same
fold — to `k`. -/
theorem C1_normalizeTag_canonical_amended (table : JSVal) (k v : String)
    (hshape : tableShapeOk table = true)
    (_hk : k ∈ objKeys table)
    (ham : mapGet ((buildIndexes table).aliasToCanonical) (foldTagKey k) = none)
    (hcm : mapGet ((buildIndexes table).foldedCanonicalToCanonical) (foldTagKey k) =
      some k)
    (hfold : foldTagKey k ≠ "")
    (hv : foldTagKey v = foldTagKey k) :
    normalizeTag (loadedState table) (.vstr v) = k := by
  have hvne : v ≠ "" := by
    intro h
    subst h
    rw [foldTagKey_empty_eq] at hv
    exact hfold hv.symm
  have hkne : k ≠ "" := ne_empty_of_foldTagKey_ne hfold
  rw [loadedState_eq_installed table hshape]
  simp [normalizeTag, installedState, hvne, hv, hfold, ham, hcm,
    orFalsy, orFalsyStr, hkne]

/-- C1 witness: in the example table, the canonical key `cat-a` satisfies
the side conditions and the whitespace-and-casing variant resolves to it. -/
theorem C1_witness :
    tableShapeOk exTableCat = true ∧
    "cat-a" ∈ objKeys exTableCat ∧
    mapGet ((buildIndexes exTableCat).aliasToCanonical) (foldTagKey "cat-a") = none ∧
    mapGet ((buildIndexes exTableCat).foldedCanonicalToCanonical)
      (foldTagKey "cat-a") = some "cat-a" ∧
    foldTagKey "cat-a" ≠ "" ∧
    foldTagKey " CAT-A " = foldTagKey "cat-a" ∧
    normalizeTag (loadedState exTableCat) (.vstr " CAT-A ") = "cat-a" :=
  ⟨rfl, by decide, rfl, rfl, by decide, rfl,
    C1_normalizeTag_canonical_amended exTableCat "cat-a" " CAT-A "
      rfl (by decide) rfl rfl (by decide) rfl⟩

/-- C5 counterexample: `{"k": {en:"", zh:""}}` passes the shape check and is
installed although both label fields are empty strings — the shape check
tests only that the fields are strings, not that they are non-empty. -/
theorem C5_counterexample :
    (setTagTable initState exTableEmptyLabels).tagTable = some exTableEmptyLabels ∧
    objGet (objGet exTableEmptyLabels "k") "en" = .vstr "" ∧
    objGet (objGet exTableEmptyLabels "k") "zh" = .vstr "" :=
  ⟨rfl, rfl, rfl⟩

/-- C5 (amended): for every table that passes load-time validation and is
installed, the `en` and `zh` fields of every entry are strings — possibly
empty; non-emptiness is not checked. -/
theorem C5_entry_fields_string_amended (table : JSVal) (k : String)
    (h : (setTagTable initState table).tagTable = some table)
    (hk : k ∈ objKeys table) :
    isString (objGet (objGet table k) "en") = true ∧
    isString (objGet (objGet table k) "zh") = true := by
  have hshape : tableShapeOk table = true := by
    by_cases hs : tableShapeOk table = true
    · exact hs
    · exfalso
      rw [setTagTable, if_neg hs] at h
      exact Option.noConfusion h
  have hall : ∀ c ∈ objKeys table, entryShapeOk (objGet table c) = true := by
    simp only [tableShapeOk, Bool.and_eq_true, List.all_eq_true] at hshape
    exact hshape.2
  have he := hall k hk
  rw [entryShapeOk_eq_fields, Bool.and_eq_true] at he
  exact he

/-- C5 witness: the example table is installed and the fields of its only
entry are (non-degenerately) strings. -/
theorem C5_witness :
    (setTagTable initState exTableCat).tagTable = some exTableCat ∧
    isString (objGet (objGet exTableCat "cat-a") "en") = true ∧
    isString (objGet (objGet exTableCat "cat-a") "zh") = true :=
  ⟨rfl,
    (C5_entry_fields_string_amended exTableCat "cat-a" rfl (by decide)).1,
    (C5_entry_fields_string_amended exTableCat "cat-a" rfl (by decide)).2⟩

/-- C8 counterexample: in the loaded example table the whitespace string
matches no canonical key and no alias (both index lookups of its fold
fail), yet `normalizeTag` returns the empty string instead of the input,
because the fold of the input is empty. -/
theorem C8_counterexample :
    tableShapeOk exTableCat = true ∧
    mapGet ((buildIndexes exTableCat).aliasToCanonical) (foldTagKey " ") = none ∧
    mapGet ((buildIndexes exTableCat).foldedCanonicalToCanonical)
      (foldTagKey " ") = none ∧
    normalizeTag (loadedState exTableCat) (.vstr " ") = "" ∧
    ("" : String) ≠ " " :=
  ⟨rfl, rfl, rfl, rfl, by decide⟩

/-- C8 (amended): for every loaded table and every string whose fold is
non-empty and matches neither the alias index nor the canonical-fold
index, `normalizeTag` returns the string unchanged and `translateTag`
returns it unchanged for every language argument. -/
theorem C8_unmatched_identity_amended (table : JSVal) (s : String) (lang : JSVal)
    (hshape : tableShapeOk table = true)
    (hfold : foldTagKey s ≠ "")
    (ham : mapGet ((buildIndexes table).aliasToCanonical) (foldTagKey s) = none)
    (hcm : mapGet ((buildIndexes table).foldedCanonicalToCanonical) (foldTagKey s) =
      none) :
    normalizeTag (loadedState table) (.vstr s) = s ∧
    translateTag (loadedState table) (.vstr s) lang = s := by
  have hsne : s ≠ "" := ne_empty_of_foldTagKey_ne hfold
  have hnorm : normalizeTag (loadedState table) (.vstr s) = s := by
    rw [loadedState_eq_installed table hshape]
    simp [normalizeTag, installedState, hsne, hfold, ham, hcm, orFalsy, orFalsyStr]
  refine ⟨hnorm, ?_⟩
  have hnotmem : s ∉ objKeys table := by
    intro hmem
    have hsome := mem_foldl_mapSet_isSome (objKeys table) [] s hmem
    rw [← buildIndexes_canon_eq, hcm] at hsome
    simp at hsome
  have hg : objGet table s = .vundefined := objGet_eq_vundef_of_not_mem table s hnotmem
  have htt : (loadedState table).tagTable = some table := by
    rw [loadedState_eq_installed table hshape]
    rfl
  simp [translateTag, htt, hsne, hnorm, hg, truthy]

/-- C8 witness: an unknown tag resolves to itself under both queries in the
loaded example table. -/
theorem C8_witness :
    foldTagKey "unknown-tag" ≠ "" ∧
    mapGet ((buildIndexes exTableCat).aliasToCanonical)
      (foldTagKey "unknown-tag") = none ∧
    mapGet ((buildIndexes exTableCat).foldedCanonicalToCanonical)
      (foldTagKey "unknown-tag") = none ∧
    normalizeTag (loadedState exTableCat) (.vstr "unknown-tag") = "unknown-tag" ∧
    translateTag (loadedState exTableCat) (.vstr "unknown-tag") .vundefined =
      "unknown-tag" :=
  ⟨by decide, rfl, rfl,
    (C8_unmatched_identity_amended exTableCat "unknown-tag" .vundefined
      rfl (by decide) rfl rfl).1,
    (C8_unmatched_identity_amended exTableCat "unknown-tag" .vundefined
      rfl (by decide) rfl rfl).2⟩

/-- C9 counterexample: the module body itself runs `maybeLoadTagTable` at
initialization (src line 202); when the loader succeeds there, the table is
already populated before any query call is made, so the table is not
created lazily on the first query call. -/
theorem C9_counterexample :
    (moduleInitState (some exTableCat)).tagTable = some exTableCat ∧
    some exTableCat ≠ (none : Option JSVal) :=
  ⟨rfl, fun h => Option.noConfusion h⟩

/-- C9 (amended): the table and both indexes are created by the loader —
run eagerly once at module initialization and again on each query while the
table is absent — and are populated at most once: once the table is
non-null, every later load attempt is a no-op (the loaded-table check
short-circuits), so the first successful load wins and the state is never
replaced or torn down. -/
theorem C9_load_once_amended (st : TagState) (loaded : Option JSVal) (t : JSVal)
    (h : st.tagTable = some t) :
    maybeLoadTagTable st loaded = st ∧
    (maybeLoadTagTable st loaded).tagTable = some t := by
  have hsome : st.tagTable.isSome = true := by rw [h]; rfl
  simp [maybeLoadTagTable, hsome, h]

/-- C9 witness: after a successful initialization load, a later load
attempt changes nothing. -/
theorem C9_witness :
    (moduleInitState (some exTableCat)).tagTable = some exTableCat ∧
    maybeLoadTagTable (moduleInitState (some exTableCat)) none =
      moduleInitState (some exTableCat) :=
  ⟨rfl,
    (C9_load_once_amended (moduleInitState (some exTableCat)) none exTableCat rfl).1⟩

/-- C10: in `translateTag` and `getAllTags`, every `lang` argument that is
not exactly the string zh — undefined, non-strings, other casings, or
arbitrary strings — behaves exactly like the string en; no third
behaviour exists and no input errors. -/
theorem C10_lang_fallback (st : TagState) (tag lang : JSVal)
    (h : lang ≠ JSVal.vstr "zh") :
    translateTag st tag lang = translateTag st tag (.vstr "en") ∧
    getAllTags st lang = getAllTags st (.vstr "en") := by
  have hz : langIsZh lang = false := by
    cases lang <;> try rfl
    case vstr s =>
      by_cases hs : s = "zh"
      · exact absurd (by rw [hs]) h
      · simp [langIsZh, hs]
  have hen : langIsZh (.vstr "en") = false := rfl
  constructor
  · cases tag <;> try rfl
    case vstr s =>
      rcases ht : st.tagTable with _ | table <;>
        simp [translateTag, ht, hz, hen]
  · rcases ht : st.tagTable with _ | table <;>
      simp [getAllTags, ht, hz, hen]

/-- C10 witness: the casing variant ZH of the language code selects the en
field, on both queries, in the loaded example table. -/
theorem C10_witness :
    (JSVal.vstr "ZH") ≠ JSVal.vstr "zh" ∧
    translateTag (loadedState exTableCat) (.vstr "cat-a") (.vstr "ZH") =
      translateTag (loadedState exTableCat) (.vstr "cat-a") (.vstr "en") ∧
    getAllTags (loadedState exTableCat) (.vstr "ZH") =
      getAllTags (loadedState exTableCat) (.vstr "en") := by
  have hne : (JSVal.vstr "ZH") ≠ JSVal.vstr "zh" := by
    intro h
    injection h with h2
    exact absurd h2 (by decide)
  exact ⟨hne, (C10_lang_fallback (loadedState exTableCat) (.vstr "cat-a")
      (.vstr "ZH") hne).1,
    (C10_lang_fallback (loadedState exTableCat) (.vstr "cat-a")
      (.vstr "ZH") hne).2⟩
